import Mathlib

/-!
Shallow embedding of the multi-query RAG pipeline implemented by
`AdvancedRAGSystem` in `src/advanced_rag.py`, together with proofs of the
behavioural properties stated for it.

Modelling conventions:
* Python strings are Lean `String`s; character-level operations work on
  `String.data`.  Python's `str.lower` is modelled with `Char.toLower`
  (faithful on ASCII, which is all the configuration tables use).
* Relevance scores are sums of the literals `10.0`, `5.0`, `2.0` and `3.0`,
  so every score arising in the program is a non-negative integer and float
  arithmetic on them is exact; scores are therefore modelled as `Nat`.
* The MD5 content fingerprint used by `_deduplicate_results` is modelled as
  an injective function of the content, i.e. fingerprint equality is content
  equality.
* Python's `list.sort(key=..., reverse=True)` is a stable sort; any stable
  sort with respect to the same total preorder produces the same list, so it
  is modelled with `List.insertionSort` (which is stable) on the relation
  `b.score ≤ a.score`.
* `list(set(...))` in `preprocess_query` enumerates a hash set, whose order
  is unspecified (CPython randomises string hashing per process).  It is
  modelled by an arbitrary enumeration function `σ` constrained by
  `IsSetEnum` (duplicate-free, same members).
* The Qdrant index and the Groq chat client are external collaborators; they
  are modelled as function parameters (`index`, `llm`).  A provider failure
  is an `Except.error`.
-/

namespace AdvancedRag

/-! ### Python string primitives -/

/-- Characters treated as whitespace by Python's `str.strip` / `str.split`. -/
def isPySpace (c : Char) : Bool :=
  c = ' ' || c = '\t' || c = '\n' || c = '\r' || c = '\x0b' || c = '\x0c'

/-- Characters matched by the regex class `\w` (ASCII model). -/
def isWordChar (c : Char) : Bool :=
  c.isAlphanum || c = '_'

/-- Strip leading and trailing whitespace from a character list. -/
def stripL (l : List Char) : List Char :=
  ((l.dropWhile isPySpace).reverse.dropWhile isPySpace).reverse

/-- Python `s.strip()`. -/
def pyStrip (s : String) : String :=
  String.mk (stripL s.data)

/-- Python `s.lower()` (ASCII model). -/
def pyLower (s : String) : String :=
  String.mk (s.data.map Char.toLower)

/-- Python's substring test `needle in hay`. -/
def pyIn (needle hay : String) : Bool :=
  decide (List.IsInfix needle.data hay.data)

/-- Split a character list on whitespace runs, dropping empty segments. -/
def pySplitL (l : List Char) : List (List Char) :=
  (l.splitOnP isPySpace).filter (fun w => w ≠ [])

/-- Python `s.split()` (no separator argument). -/
def pySplit (s : String) : List String :=
  (pySplitL s.data).map String.mk

/-- Python `' '.join(ws)` on character lists. -/
def joinSpaceL : List (List Char) → List Char
  | [] => []
  | [w] => w
  | w :: ws => w ++ ' ' :: joinSpaceL ws

/-- The normalisation prefix of `preprocess_query` (lines 66-70 of
`src/advanced_rag.py`): lowercase, strip, replace non-word non-space
characters by a space, collapse whitespace. -/
def pyNormalize (query : String) : String :=
  let q1 := pyStrip (pyLower query)
  let q2 := String.mk (q1.data.map (fun c => if isWordChar c || isPySpace c then c else ' '))
  String.mk (joinSpaceL (pySplitL q2.data))

/-! ### Lemmas about stripping and joining -/

theorem dropWhile_eq_self_of_forall {p : Char → Bool} {l : List Char}
    (h : ∀ c ∈ l, p c = false) : l.dropWhile p = l := by
  cases l with
  | nil => rfl
  | cons c cs => simp [List.dropWhile_cons, h c (List.mem_cons_self c cs)]

theorem stripL_eq_self_of_forall {l : List Char}
    (h : ∀ c ∈ l, isPySpace c = false) : stripL l = l := by
  unfold stripL
  rw [dropWhile_eq_self_of_forall h,
    dropWhile_eq_self_of_forall (fun c hc => h c (List.mem_reverse.mp hc)),
    List.reverse_reverse]

theorem dropWhile_append_of_ne_nil {p : Char → Bool} {l m : List Char}
    (hl : l.dropWhile p = l) (hne : l ≠ []) :
    (l ++ m).dropWhile p = l ++ m := by
  cases l with
  | nil => exact absurd rfl hne
  | cons c cs =>
    have hc : p c = false := by
      have h0 := (List.dropWhile_eq_self_iff).mp hl (by simp)
      simpa using h0
    rw [List.cons_append, List.dropWhile_cons]
    simp [hc]

theorem splitOnP_sep_not_mem {p : Char → Bool} (l : List Char) :
    ∀ w ∈ l.splitOnP p, ∀ c ∈ w, p c = false := by
  induction l with
  | nil =>
    intro w hw c hc
    rw [List.splitOnP_nil] at hw
    simp at hw
    subst hw
    simp at hc
  | cons x xs ih =>
    intro w hw c hc
    rw [List.splitOnP_cons] at hw
    by_cases hx : p x
    · rw [if_pos hx] at hw
      rcases List.mem_cons.mp hw with h1 | h2
      · subst h1; simp at hc
      · exact ih w h2 c hc
    · rw [if_neg (by simpa using hx)] at hw
      obtain ⟨hd, tl, heq⟩ := List.exists_cons_of_ne_nil (List.splitOnP_ne_nil p xs)
      rw [heq, List.modifyHead_cons] at hw
      rcases List.mem_cons.mp hw with h1 | h2
      · subst h1
        rcases List.mem_cons.mp hc with hc1 | hc2
        · subst hc1; simpa using hx
        · exact ih hd (by rw [heq]; exact List.mem_cons_self hd tl) c hc2
      · exact ih w (by rw [heq]; exact List.mem_cons_of_mem hd h2) c hc

theorem pySplitL_words {l : List Char} {w : List Char} (hw : w ∈ pySplitL l) :
    w ≠ [] ∧ ∀ c ∈ w, isPySpace c = false := by
  unfold pySplitL at hw
  have h1 := List.of_mem_filter hw
  have h2 := List.mem_of_mem_filter hw
  exact ⟨by simpa using h1, splitOnP_sep_not_mem l w h2⟩

theorem joinSpaceL_ne_nil {w : List Char} {ws : List (List Char)} (hw : w ≠ []) :
    joinSpaceL (w :: ws) ≠ [] := by
  cases ws with
  | nil => simpa [joinSpaceL] using hw
  | cons w' ws' => simp [joinSpaceL]

theorem dropWhile_joinSpaceL {ws : List (List Char)}
    (h1 : ∀ w ∈ ws, w ≠ []) (h2 : ∀ w ∈ ws, ∀ c ∈ w, isPySpace c = false) :
    (joinSpaceL ws).dropWhile isPySpace = joinSpaceL ws := by
  cases ws with
  | nil => rfl
  | cons w ws' =>
    have hw : w ≠ [] := h1 w (List.mem_cons_self w ws')
    have hwc : ∀ c ∈ w, isPySpace c = false :=
      fun c hc => h2 w (List.mem_cons_self w ws') c hc
    cases ws' with
    | nil => simpa [joinSpaceL] using dropWhile_eq_self_of_forall hwc
    | cons w' ws'' =>
      simp only [joinSpaceL]
      exact dropWhile_append_of_ne_nil (dropWhile_eq_self_of_forall hwc) hw

theorem dropWhile_reverse_joinSpaceL {ws : List (List Char)}
    (h1 : ∀ w ∈ ws, w ≠ []) (h2 : ∀ w ∈ ws, ∀ c ∈ w, isPySpace c = false) :
    (joinSpaceL ws).reverse.dropWhile isPySpace = (joinSpaceL ws).reverse := by
  induction ws with
  | nil => rfl
  | cons w ws' ih =>
    cases ws' with
    | nil =>
      simp only [joinSpaceL]
      exact dropWhile_eq_self_of_forall
        (fun c hc => h2 w (List.mem_cons_self w []) c (List.mem_reverse.mp hc))
    | cons w' ws'' =>
      have h1' : ∀ u ∈ w' :: ws'', u ≠ [] := fun u hu => h1 u (List.mem_cons_of_mem w hu)
      have h2' : ∀ u ∈ w' :: ws'', ∀ c ∈ u, isPySpace c = false :=
        fun u hu => h2 u (List.mem_cons_of_mem w hu)
      have hJ : (joinSpaceL (w' :: ws'')).reverse ≠ [] := by
        simpa using joinSpaceL_ne_nil (h1' w' (List.mem_cons_self w' ws''))
      have step1 : ((joinSpaceL (w' :: ws'')).reverse ++ [' ']).dropWhile isPySpace =
          (joinSpaceL (w' :: ws'')).reverse ++ [' '] :=
        dropWhile_append_of_ne_nil (ih h1' h2') hJ
      have step2 : (((joinSpaceL (w' :: ws'')).reverse ++ [' ']) ++ w.reverse).dropWhile isPySpace =
          ((joinSpaceL (w' :: ws'')).reverse ++ [' ']) ++ w.reverse :=
        dropWhile_append_of_ne_nil step1 (by simp)
      simp only [joinSpaceL, List.reverse_append, List.reverse_cons]
      simpa [List.append_assoc] using step2

theorem stripL_joinSpaceL {ws : List (List Char)}
    (h1 : ∀ w ∈ ws, w ≠ []) (h2 : ∀ w ∈ ws, ∀ c ∈ w, isPySpace c = false) :
    stripL (joinSpaceL ws) = joinSpaceL ws := by
  unfold stripL
  rw [dropWhile_joinSpaceL h1 h2, dropWhile_reverse_joinSpaceL h1 h2, List.reverse_reverse]

/-- Normalised queries are already stripped: stripping is the identity on the
output of `pyNormalize`. -/
theorem pyStrip_pyNormalize (query : String) :
    pyStrip (pyNormalize query) = pyNormalize query := by
  unfold pyNormalize pyStrip
  congr 1
  exact stripL_joinSpaceL
    (fun w hw => (pySplitL_words hw).1)
    (fun w hw => (pySplitL_words hw).2)

/-! ### Configuration tables (`AdvancedRAGSystem.__init__`) -/

/-- `self.name_variations`, in dict insertion order. -/
def name_variations : List (String × List String) :=
  [("harsha", ["jakku harshavardhan", "harshavardhan", "jakku"]),
   ("jakku", ["jakku harshavardhan", "harsha", "harshavardhan"]),
   ("harshavardhan", ["jakku harshavardhan", "harsha", "jakku"])]

def education_keywords : List String :=
  ["education", "degree", "university", "college", "cgpa", "btech", "cse"]

def project_keywords : List String :=
  ["project", "work", "developed", "built", "created", "github"]

def skill_keywords : List String :=
  ["skill", "technology", "programming", "language", "framework"]

/-! ### `preprocess_query` -/

/-- The variant pool built by `preprocess_query` (lines 72-89) from the
already-normalised query: the original query, then alias expansions, then
topic expansions, in program order. -/
def rawVariations (q : String) : List String :=
  let v0 := [q]
  let v1 := name_variations.foldl
    (fun acc kv =>
      if pyIn kv.1 q then
        acc ++ kv.2.map (fun var => var ++ " " ++ pyStrip (q.replace kv.1 "")) ++ kv.2
      else acc) v0
  let v2 := if education_keywords.any (fun w => pyIn w q) then
      v1 ++ ["jakku harshavardhan education", "harsha education background"] else v1
  let v3 := if project_keywords.any (fun w => pyIn w q) then
      v2 ++ ["jakku harshavardhan projects", "harsha work experience"] else v2
  let v4 := if skill_keywords.any (fun w => pyIn w q) then
      v3 ++ ["jakku harshavardhan skills", "harsha technical skills"] else v3
  v4

/-- The list comprehension `[v.strip() for v in variations if v.strip()]`
(line 92): strip every variant and drop the ones that become empty. -/
def strippedPool (q : String) : List String :=
  ((rawVariations q).map pyStrip).filter (fun v => v ≠ "")

/-- A function behaves like `list(set(...))` iff its output is duplicate-free
and has exactly the members of its input.  CPython's set iteration order is
hash-dependent and unspecified, so `preprocess_query` is parametrised by any
such enumeration. -/
def IsSetEnum (σ : List String → List String) : Prop :=
  ∀ xs : List String, (σ xs).Nodup ∧ ∀ a : String, a ∈ σ xs ↔ a ∈ xs

/-- One concrete admissible `list(set(...))` enumeration. -/
def pySetList : List String → List String :=
  fun xs => xs.dedup

/-- Another concrete admissible enumeration (reversed); CPython gives no
ordering guarantee, so this is as legitimate a run as `pySetList`. -/
def pySetListRev : List String → List String :=
  fun xs => xs.dedup.reverse

theorem isSetEnum_pySetList : IsSetEnum pySetList :=
  fun xs => ⟨List.nodup_dedup xs, fun _ => List.mem_dedup⟩

theorem isSetEnum_pySetListRev : IsSetEnum pySetListRev := by
  intro xs
  refine ⟨List.nodup_reverse.mpr (List.nodup_dedup xs), fun a => ?_⟩
  simp [pySetListRev, List.mem_reverse, List.mem_dedup]

/-- `AdvancedRAGSystem.preprocess_query` (lines 64-94): normalise, expand,
strip/dedupe via `list(set(...))`, truncate to 5 variants. -/
def preprocess_query (σ : List String → List String) (query : String) : List String :=
  (σ (strippedPool (pyNormalize query))).take 5

theorem sigma_nil_eq_nil {σ : List String → List String} (hσ : IsSetEnum σ) :
    σ [] = [] := by
  rcases List.eq_nil_or_concat (σ []) with h | ⟨l, a, h⟩
  · exact h
  · exfalso
    have ha : a ∈ σ [] := by simp [h]
    simpa using ((hσ []).2 a).mp ha

/-! ### Data model -/

/-- The `SearchResult` dataclass (lines 28-33).  `metadata` is modelled as an
association list and `score` as a `Nat` (see the header comment). -/
structure SearchResult where
  content : String
  score : Nat
  metadata : List (String × String)
  source : String
deriving DecidableEq, Repr

/-- One point returned by the vector index: the `content` entry of its
payload (`payload.get('content', '')`, so a missing key is the empty string)
and the `metadata` entry of its payload. -/
structure Hit where
  content : String
  metadata : List (String × String)
deriving DecidableEq, Repr

/-- `result.payload.get('metadata', {}).get('source', 'unknown')`. -/
def sourceOfMetadata (md : List (String × String)) : String :=
  (md.lookup "source").getD "unknown"

/-! ### `_calculate_relevance_score` (lines 168-195) -/

/-- The `name_patterns` list local to `_calculate_relevance_score`. -/
def name_patterns : List String :=
  ["jakku harshavardhan", "harsha", "harshavardhan"]

/-- `AdvancedRAGSystem._calculate_relevance_score`.  The Python
`set(query_lower.split())` is modelled as `(pySplit query_lower).dedup`
(iteration order does not affect the sum), and each `+= x.0` becomes `+ x`
on `Nat`. -/
def calculate_relevance_score (query content : String) : Nat :=
  let query_lower := pyLower query
  let content_lower := pyLower content
  let score : Nat := 0
  let score := if pyIn query_lower content_lower then score + 10 else score
  let score := name_patterns.foldl
    (fun s pat => if pyIn pat query_lower && pyIn pat content_lower then s + 5 else s) score
  let query_words := (pySplit query_lower).dedup
  let content_words := pySplit content_lower
  let word_matches := query_words.countP (fun w => content_words.contains w)
  let score := score + word_matches * 2
  let score := if content.length < 500 then score + 2 else score
  score

/-! ### `_deduplicate_results` (lines 197-209) -/

/-- The loop of `_deduplicate_results`: `seen` is the set of content
fingerprints already emitted (fingerprints are modelled by the content
itself, treating MD5 as injective). -/
def dedupGo (seen : List String) : List SearchResult → List SearchResult
  | [] => []
  | r :: rs =>
    if r.content ∈ seen then dedupGo seen rs
    else r :: dedupGo (r.content :: seen) rs

/-- `AdvancedRAGSystem._deduplicate_results`. -/
def deduplicate_results (results : List SearchResult) : List SearchResult :=
  dedupGo [] results

/-- Modelled from the spec wording of §4.4: keep, in original order, exactly
the first candidate observed for each content fingerprint.  Used as the
reference point for the claim that `_deduplicate_results` does exactly
this. -/
def specFirstKeep : List SearchResult → List SearchResult
  | [] => []
  | r :: rs => r :: specFirstKeep (rs.filter (fun x => x.content ≠ r.content))
termination_by l => l.length
decreasing_by
  simp only [List.length_cons]
  exact Nat.lt_succ_of_le (List.length_filter_le _ rs)

/-! ### `_rerank_results` (lines 211-225) -/

/-- The descending-score order used by `results.sort(key=lambda x: x.score,
reverse=True)`. -/
def scoreGe (a b : SearchResult) : Prop :=
  b.score ≤ a.score

instance : DecidableRel scoreGe :=
  fun a b => Nat.decLe b.score a.score

instance : IsTotal SearchResult scoreGe :=
  ⟨fun a b => Nat.le_total b.score a.score⟩

instance : IsTrans SearchResult scoreGe :=
  ⟨fun _ _ _ h1 h2 => Nat.le_trans h2 h1⟩

/-- Python's `list.sort` is stable; every stable sort for the same total
preorder produces the same list, so the model uses insertion sort (stable). -/
def sortByScoreDesc (results : List SearchResult) : List SearchResult :=
  results.insertionSort scoreGe

/-- The boost condition of lines 218-219: the content (lowercased) mentions
one of the hard-coded subject names. -/
def hasNameBoost (r : SearchResult) : Bool :=
  (["jakku harshavardhan", "harsha"] : List String).any (fun nm => pyIn nm (pyLower r.content))

/-- `result.score += 3.0` applied to the boosted candidates. -/
def boostOne (r : SearchResult) : SearchResult :=
  if hasNameBoost r then { r with score := r.score + 3 } else r

/-- `AdvancedRAGSystem._rerank_results`: sort by score descending, add the
`+3.0` name boost, re-sort.  The `query` argument is unused by the source
beyond computing `query_lower`, which the boost condition does not read. -/
def rerank_results (query : String) (results : List SearchResult) : List SearchResult :=
  sortByScoreDesc ((sortByScoreDesc results).map boostOne)

/-! ### `generate_context` (lines 227-240) -/

/-- Python `f"{score:.1f}"` for the integer-valued scores of this program. -/
def formatScore (n : Nat) : String :=
  toString n ++ ".0"

/-- The annotated form `f"[Score: {result.score:.1f}] {result.content}"`. -/
def contextLine (r : SearchResult) : String :=
  "[Score: " ++ formatScore r.score ++ "] " ++ r.content

/-- The accumulation loop of `generate_context`: `current_length` counts only
`len(result.content)`, while the emitted part carries the score annotation. -/
def contextPartsGo (max_length : Int) : List SearchResult → Nat → List String
  | [], _ => []
  | r :: rs, current_length =>
    if (current_length : Int) + r.content.length > max_length then []
    else ("[Score: " ++ formatScore r.score ++ "] " ++ r.content)
      :: contextPartsGo max_length rs (current_length + r.content.length)

/-- The candidates actually included by the loop (same recursion, returning
the results instead of the formatted parts). -/
def includedResults (max_length : Int) : List SearchResult → Nat → List SearchResult
  | [], _ => []
  | r :: rs, current_length =>
    if (current_length : Int) + r.content.length > max_length then []
    else r :: includedResults max_length rs (current_length + r.content.length)

/-- `AdvancedRAGSystem.generate_context` (default `max_length = 2000`). -/
def generate_context (results : List SearchResult) (max_length : Int) : String :=
  String.intercalate "\n\n" (contextPartsGo max_length results 0)

/-! ### `hybrid_search` (lines 130-166) -/

/-- `AdvancedRAGSystem.hybrid_search`.  `index variation k` stands for the
payloads of `qdrant_client.query_points(collection, embedding(variation),
limit=k).points`; hits with empty (or missing) content are skipped, the rest
are scored against the variation that retrieved them.  Per-variant failures
are out of scope of the claims and the index is modelled as total. -/
def hybrid_search (index : String → Nat → List Hit) (σ : List String → List String)
    (query : String) (k : Nat) : List SearchResult :=
  let query_variations := preprocess_query σ query
  let all_results := query_variations.flatMap (fun variation =>
    (index variation k).filterMap (fun hit =>
      if hit.content = "" then none
      else some { content := hit.content
                  score := calculate_relevance_score variation hit.content
                  metadata := hit.metadata
                  source := sourceOfMetadata hit.metadata }))
  let unique_results := deduplicate_results all_results
  let reranked_results := rerank_results query unique_results
  reranked_results.take k

/-! ### `generate_answer` and `ask_question` (lines 242-300) -/

/-- The fixed no-context response of `ask_question` (line 290). -/
def INSUFFICIENT_INFO : String :=
  "I don't have sufficient information about this topic in the provided context."

/-- The system message passed to the chat completion (line 271). -/
def SYSTEM_MESSAGE : String :=
  "You are a knowledgeable assistant that provides accurate, well-structured answers based on context."

/-- The user prompt built by `generate_answer` (lines 244-265). -/
def build_prompt (query context : String) : String :=
  "\nYou are an expert AI assistant specializing in providing accurate, comprehensive information about Jakku Harshavardhan.\n\nCONTEXT (with relevance scores):\n"
    ++ context
    ++ "\n\nQUESTION: " ++ query
    ++ "\n\nINSTRUCTIONS:\n1. Use ONLY the provided context to answer the question\n2. If the context contains relevant information, provide a detailed, well-structured answer\n3. If multiple pieces of information are relevant, synthesize them coherently\n4. If the context doesn't contain enough information, respond with: \"I don't have sufficient information about this specific topic in the provided context.\"\n5. Always be specific and factual\n6. Use proper formatting and structure\n\nRESPONSE FORMAT:\n- Start with a direct answer if possible\n- Provide supporting details from the context\n- Use bullet points or numbered lists when appropriate\n- End with a clear conclusion\n"

/-- `AdvancedRAGSystem.generate_answer`: call the generation provider; on
success return the trimmed completion, on an exception return the formatted
error string (lines 267-280). -/
def generate_answer (llm : String → String → Except String String)
    (query context : String) : String :=
  match llm SYSTEM_MESSAGE (build_prompt query context) with
  | Except.ok text => pyStrip text
  | Except.error e => "Error generating response: " ++ e

/-- `AdvancedRAGSystem.ask_question` (lines 282-300): hybrid search with
`k = 8`, short-circuit to the fixed string on an empty result list,
otherwise assemble context (budget 2000) and generate. -/
def ask_question (index : String → Nat → List Hit) (σ : List String → List String)
    (llm : String → String → Except String String) (question : String) : String :=
  let search_results := hybrid_search index σ question 8
  if search_results = [] then INSUFFICIENT_INFO
  else generate_answer llm question (generate_context search_results 2000)

/-! ### Properties of `preprocess_query` (claims C2, C9) -/

theorem mem_foldl_alias {q x : String} {acc : List String}
    (l : List (String × List String)) (hx : x ∈ acc) :
    x ∈ l.foldl
      (fun acc kv =>
        if pyIn kv.1 q then
          acc ++ kv.2.map (fun var => var ++ " " ++ pyStrip (q.replace kv.1 "")) ++ kv.2
        else acc) acc := by
  induction l generalizing acc with
  | nil => exact hx
  | cons kv t ih =>
    rw [List.foldl_cons]
    apply ih
    by_cases h : pyIn kv.1 q
    · rw [if_pos h]
      exact List.mem_append_left _ (List.mem_append_left _ hx)
    · rwa [if_neg h]

theorem self_mem_rawVariations (q : String) : q ∈ rawVariations q := by
  unfold rawVariations
  have h1 : q ∈ name_variations.foldl
      (fun acc kv =>
        if pyIn kv.1 q then
          acc ++ kv.2.map (fun var => var ++ " " ++ pyStrip (q.replace kv.1 "")) ++ kv.2
        else acc) [q] :=
    mem_foldl_alias name_variations (List.mem_singleton.mpr rfl)
  split <;> split <;> split <;>
    simp only [List.mem_append] <;> tauto

theorem self_mem_strippedPool {query : String} (hq : pyNormalize query ≠ "") :
    pyNormalize query ∈ strippedPool (pyNormalize query) := by
  unfold strippedPool
  refine List.mem_filter.mpr ⟨?_, by simpa using hq⟩
  exact List.mem_map.mpr
    ⟨pyNormalize query, self_mem_rawVariations _, pyStrip_pyNormalize query⟩

/-- C2 (amended): for every query that is non-empty after normalization and
every admissible `list(set(...))` enumeration, `preprocess_query` returns
between 1 and 5 variants with no duplicate and no empty-string entries, and
the normalized original query is a member of the deduplicated pool before
truncation.  (The original is NOT guaranteed to be the first returned
variant, nor to survive truncation — see the counterexample.) -/
theorem preprocess_query_bounds (σ : List String → List String) (query : String)
    (hσ : IsSetEnum σ) (hq : pyNormalize query ≠ "") :
    1 ≤ (preprocess_query σ query).length ∧
    (preprocess_query σ query).length ≤ 5 ∧
    (preprocess_query σ query).Nodup ∧
    "" ∉ preprocess_query σ query ∧
    pyNormalize query ∈ σ (strippedPool (pyNormalize query)) := by
  have hmem : pyNormalize query ∈ σ (strippedPool (pyNormalize query)) :=
    ((hσ _).2 _).mpr (self_mem_strippedPool hq)
  refine ⟨?_, List.length_take_le 5 _, ?_, ?_, hmem⟩
  · have hne : σ (strippedPool (pyNormalize query)) ≠ [] := List.ne_nil_of_mem hmem
    have hpos : 0 < (σ (strippedPool (pyNormalize query))).length :=
      List.length_pos.mpr hne
    unfold preprocess_query
    rw [List.length_take]
    omega
  · exact List.Nodup.sublist (List.take_sublist 5 _) (hσ _).1
  · intro hcon
    have h1 : ("" : String) ∈ σ (strippedPool (pyNormalize query)) :=
      List.take_subset 5 _ hcon
    have h2 : ("" : String) ∈ strippedPool (pyNormalize query) := ((hσ _).2 _).mp h1
    have h3 := List.of_mem_filter h2
    simp at h3

/-- C2 (counterexample): with the equally admissible reversed set
enumeration, the normalized original `"education"` is not the first returned
variant, and for `"education project skill"` (seven distinct variants before
truncation) the normalized original is dropped from the returned sequence
altogether. -/
theorem preprocess_query_original_first_cex :
    IsSetEnum pySetListRev ∧
    (preprocess_query pySetListRev "education").head? ≠ some (pyNormalize "education") ∧
    pyNormalize "education project skill" ∉
      preprocess_query pySetListRev "education project skill" :=
  ⟨isSetEnum_pySetListRev, by decide, by decide⟩

/-- C2 (witness): concrete instance of `preprocess_query_bounds` at the query
`"hello"` and the canonical enumeration. -/
theorem preprocess_query_bounds_witness :
    pyNormalize "hello" ≠ "" ∧
    (1 ≤ (preprocess_query pySetList "hello").length ∧
      (preprocess_query pySetList "hello").length ≤ 5 ∧
      (preprocess_query pySetList "hello").Nodup ∧
      "" ∉ preprocess_query pySetList "hello" ∧
      pyNormalize "hello" ∈ pySetList (strippedPool (pyNormalize "hello"))) :=
  ⟨by decide, preprocess_query_bounds pySetList "hello" isSetEnum_pySetList (by decide)⟩

/-- C9 (amended): for every input that is empty after normalization and every
admissible set enumeration, `preprocess_query` returns the EMPTY sequence
(the comprehension on line 92 drops empty strings, so no empty-string variant
survives), not a one-element sequence containing the empty string. -/
theorem preprocess_query_empty (σ : List String → List String) (query : String)
    (hσ : IsSetEnum σ) (hq : pyNormalize query = "") :
    preprocess_query σ query = [] := by
  unfold preprocess_query
  rw [hq]
  have hsp : strippedPool "" = [] := by decide
  rw [hsp, sigma_nil_eq_nil hσ]
  rfl

/-- C9 (counterexample): on the empty input the code returns `[]`, not the
single empty-string variant `[""]` stated by the claim. -/
theorem preprocess_query_empty_cex :
    IsSetEnum pySetList ∧
    preprocess_query pySetList "" = [] ∧
    preprocess_query pySetList "" ≠ [""] :=
  ⟨isSetEnum_pySetList, by decide, by decide⟩

/-- C9 (witness): concrete instance of `preprocess_query_empty` at the
punctuation-only input `"?!"`, which normalizes to the empty string. -/
theorem preprocess_query_empty_witness :
    pyNormalize "?!" = "" ∧ preprocess_query pySetList "?!" = [] :=
  ⟨by decide, preprocess_query_empty pySetList "?!" isSetEnum_pySetList (by decide)⟩

/-! ### Properties of `_calculate_relevance_score` (claim C4) -/

theorem foldl_if_add_five (ql cl : String) (l : List String) (s : Nat) :
    l.foldl (fun s pat => if pyIn pat ql && pyIn pat cl then s + 5 else s) s
      = s + 5 * (l.filter (fun pat => pyIn pat ql && pyIn pat cl)).length := by
  induction l generalizing s with
  | nil => simp
  | cons a t ih =>
    rw [List.foldl_cons, List.filter_cons]
    cases h : (pyIn a ql && pyIn a cl) with
    | false =>
      rw [if_neg (by simp [h]), if_neg (by simp [h])]
      exact ih s
    | true =>
      rw [if_pos (by simp [h]), if_pos (by simp [h]), ih]
      simp only [List.length_cons]
      omega

/-- C4 (confirmed): the composite base score is exactly the sum of the
exact-substring bonus (10), 5 per identity pattern occurring in both query
and content, 2 per distinct query word occurring among the content tokens,
and the conciseness bonus (2) for content shorter than 500 characters. -/
theorem calculate_relevance_score_closed_form (query content : String) :
    calculate_relevance_score query content =
      (if pyIn (pyLower query) (pyLower content) then 10 else 0)
      + 5 * (name_patterns.filter
          (fun pat => pyIn pat (pyLower query) && pyIn pat (pyLower content))).length
      + 2 * ((pySplit (pyLower query)).dedup.filter
          (fun w => (pySplit (pyLower content)).contains w)).length
      + (if content.length < 500 then 2 else 0) := by
  unfold calculate_relevance_score
  dsimp only
  rw [foldl_if_add_five, List.countP_eq_length_filter]
  split <;> split <;> omega

/-! ### Properties of `_deduplicate_results` (claim C5) -/

theorem dedupGo_not_mem_seen :
    ∀ (xs : List SearchResult) (seen : List String) (r : SearchResult),
      r ∈ dedupGo seen xs → r.content ∉ seen := by
  intro xs
  induction xs with
  | nil => intro seen r h; simp [dedupGo] at h
  | cons x t ih =>
    intro seen r h
    unfold dedupGo at h
    by_cases hx : x.content ∈ seen
    · rw [if_pos hx] at h
      exact ih seen r h
    · rw [if_neg hx] at h
      rcases List.mem_cons.mp h with h1 | h2
      · subst h1; exact hx
      · intro hc
        exact ih _ r h2 (List.mem_cons_of_mem _ hc)

theorem dedupGo_contents_nodup :
    ∀ (xs : List SearchResult) (seen : List String),
      ((dedupGo seen xs).map (fun r => r.content)).Nodup := by
  intro xs
  induction xs with
  | nil => intro seen; simp [dedupGo]
  | cons x t ih =>
    intro seen
    unfold dedupGo
    by_cases hx : x.content ∈ seen
    · rw [if_pos hx]
      exact ih seen
    · rw [if_neg hx]
      simp only [List.map_cons, List.nodup_cons]
      refine ⟨?_, ih _⟩
      intro hmem
      rcases List.mem_map.mp hmem with ⟨r, hr, hrc⟩
      exact dedupGo_not_mem_seen t _ r hr (by rw [hrc]; exact List.mem_cons_self _ _)

theorem dedupGo_eq_self :
    ∀ (xs : List SearchResult) (seen : List String),
      (∀ r ∈ xs, r.content ∉ seen) → ((xs.map (fun r => r.content)).Nodup) →
      dedupGo seen xs = xs := by
  intro xs
  induction xs with
  | nil => intro seen _ _; rfl
  | cons x t ih =>
    intro seen h1 h2
    unfold dedupGo
    rw [if_neg (h1 x (List.mem_cons_self x t))]
    simp only [List.map_cons, List.nodup_cons] at h2
    congr 1
    apply ih
    · intro r hr hc
      rcases List.mem_cons.mp hc with hc1 | hc2
      · exact h2.1 (List.mem_map.mpr ⟨r, hr, hc1⟩)
      · exact h1 r (List.mem_cons_of_mem _ hr) hc2
    · exact h2.2

theorem dedupGo_eq_specFirstKeep :
    ∀ (xs : List SearchResult) (seen : List String),
      dedupGo seen xs = specFirstKeep (xs.filter (fun r => r.content ∉ seen)) := by
  intro xs
  induction xs with
  | nil => intro seen; simp [specFirstKeep, dedupGo]
  | cons x t ih =>
    intro seen
    unfold dedupGo
    rw [List.filter_cons]
    by_cases hx : x.content ∈ seen
    · rw [if_pos hx, if_neg (by simpa using hx)]
      exact ih seen
    · rw [if_neg hx, if_pos (by simpa using hx), specFirstKeep, ih (x.content :: seen)]
      have hfil : List.filter (fun r => decide (r.content ∉ x.content :: seen)) t
          = List.filter (fun a => decide (a.content ≠ x.content) && decide (a.content ∉ seen)) t := by
        apply List.filter_congr
        intro r _
        by_cases h1 : r.content = x.content <;> by_cases h2 : r.content ∈ seen <;>
          simp [h1, h2]
      rw [List.filter_filter, hfil]

theorem dedupGo_sublist :
    ∀ (xs : List SearchResult) (seen : List String), List.Sublist (dedupGo seen xs) xs := by
  intro xs
  induction xs with
  | nil => intro seen; exact List.Sublist.refl []
  | cons x t ih =>
    intro seen
    unfold dedupGo
    by_cases hx : x.content ∈ seen
    · rw [if_pos hx]
      exact List.Sublist.cons x (ih seen)
    · rw [if_neg hx]
      exact List.Sublist.cons₂ x (ih _)

/-- C5 (confirmed): `_deduplicate_results` is idempotent, and its output is
exactly the subsequence of the input that keeps, in original order, the
first candidate observed for each content fingerprint (`specFirstKeep`
states the spec wording; the fingerprint compares the verbatim content, so
whitespace-only differences are distinct contents). -/
theorem deduplicate_results_spec (xs : List SearchResult) :
    deduplicate_results (deduplicate_results xs) = deduplicate_results xs ∧
    deduplicate_results xs = specFirstKeep xs ∧
    List.Sublist (deduplicate_results xs) xs := by
  refine ⟨?_, ?_, dedupGo_sublist xs []⟩
  · exact dedupGo_eq_self _ [] (by simp) (dedupGo_contents_nodup xs [])
  · have h := dedupGo_eq_specFirstKeep xs []
    simpa using h

/-! ### Properties of `_rerank_results` (claims C6, C7) -/

/-- C6 (amended): the sequence returned by `_rerank_results` is non-increasing
in finalScore.  (Idempotence of the ordering fails: each invocation adds a
further `+3.0` to name-mentioning candidates, which can reorder the output of
a previous invocation — see the counterexample.) -/
theorem rerank_results_score_nonincreasing (query : String) (results : List SearchResult) :
    (rerank_results query results).Pairwise (fun a b => b.score ≤ a.score) :=
  List.sorted_insertionSort scoreGe ((sortByScoreDesc results).map boostOne)

/-- C6 (counterexample): re-invoking `_rerank_results` on its own output
changes the candidate ordering, because the `+3.0` boost is applied again: an
unboosted candidate with score 10 precedes a boosted one with score 6→9 after
one invocation, but is overtaken (9→12) after a second invocation. -/
theorem rerank_results_reinvocation_cex :
    (rerank_results "q" (rerank_results "q"
        [⟨"zzz", 10, [], "unknown"⟩, ⟨"harsha", 6, [], "unknown"⟩])).map (fun r => r.content)
      ≠ (rerank_results "q"
        [⟨"zzz", 10, [], "unknown"⟩, ⟨"harsha", 6, [], "unknown"⟩]).map (fun r => r.content) := by
  decide

/-- C7 (amended): two candidates with equal finalScore after reranking that
also have the same boost status (both or neither mentioning a subject
identity term) appear in the rerank output in their relative input order.
(Equal finalScore alone is not enough — see the counterexample, where a
boosted and an unboosted candidate tie and appear in descending pre-boost
order instead.) -/
theorem rerank_results_ties_same_boost_stable (query : String) (results : List SearchResult)
    (a b : SearchResult) (hsub : List.Sublist [a, b] results)
    (hstat : hasNameBoost a = hasNameBoost b)
    (hscore : (boostOne a).score = (boostOne b).score) :
    List.Sublist [boostOne a, boostOne b] (rerank_results query results) := by
  have hbase : b.score ≤ a.score := by
    unfold boostOne at hscore
    cases hb : hasNameBoost a
    · rw [hb] at hscore hstat
      rw [if_neg (by simp [hb]), if_neg (by simp [hstat.symm])] at hscore
      omega
    · rw [hb] at hscore hstat
      rw [if_pos (by simp [hb]), if_pos (by simp [hstat.symm])] at hscore
      simp at hscore
      omega
  have h1 : List.Sublist [a, b] (sortByScoreDesc results) :=
    List.pair_sublist_insertionSort hbase hsub
  have h2 : List.Sublist [boostOne a, boostOne b] ((sortByScoreDesc results).map boostOne) := by
    simpa using List.Sublist.map boostOne h1
  exact List.pair_sublist_insertionSort (Nat.le_of_eq hscore.symm) h2

/-- C7 (counterexample): in the input, the boosted candidate (content
`"harsha"`, score 7) comes first and the unboosted one (content `"zzz"`,
score 10) second; after reranking both have finalScore 10, yet the output
orders `"zzz"` before `"harsha"` — ties are NOT broken by original input
position. -/
theorem rerank_results_ties_input_order_cex :
    (rerank_results "q" [⟨"harsha", 7, [], "unknown"⟩, ⟨"zzz", 10, [], "unknown"⟩]).map
        (fun r => (r.content, r.score)) = [("zzz", 10), ("harsha", 10)] ∧
    (rerank_results "q" [⟨"harsha", 7, [], "unknown"⟩, ⟨"zzz", 10, [], "unknown"⟩]).map
        (fun r => r.content) ≠ ["harsha", "zzz"] := by
  constructor <;> decide

/-- Concrete candidates for the C7 witness: both mention the identity term,
so both are boosted, and both end with finalScore 8. -/
def tieWitnessA : SearchResult :=
  ⟨"harsha", 5, [], "unknown"⟩

def tieWitnessB : SearchResult :=
  ⟨"harsha b", 5, [], "unknown"⟩

/-- C7 (witness): concrete instance of `rerank_results_ties_same_boost_stable`
on a two-element input of equally-scored boosted candidates. -/
theorem rerank_results_ties_same_boost_stable_witness :
    List.Sublist [tieWitnessA, tieWitnessB] [tieWitnessA, tieWitnessB] ∧
    hasNameBoost tieWitnessA = hasNameBoost tieWitnessB ∧
    (boostOne tieWitnessA).score = (boostOne tieWitnessB).score ∧
    List.Sublist [boostOne tieWitnessA, boostOne tieWitnessB]
      (rerank_results "q" [tieWitnessA, tieWitnessB]) :=
  ⟨by decide, by decide, by decide,
    rerank_results_ties_same_boost_stable "q" [tieWitnessA, tieWitnessB]
      tieWitnessA tieWitnessB (by decide) (by decide) (by decide)⟩

/-! ### Properties of `generate_context` (claim C3) -/

theorem contextPartsGo_eq_map :
    ∀ (rs : List SearchResult) (m : Int) (cur : Nat),
      contextPartsGo m rs cur = (includedResults m rs cur).map contextLine := by
  intro rs
  induction rs with
  | nil => intro m cur; rfl
  | cons r t ih =>
    intro m cur
    unfold contextPartsGo includedResults
    by_cases h : ((cur : Int) + r.content.length > m)
    · rw [if_pos h, if_pos h]
      rfl
    · rw [if_neg h, if_neg h, List.map_cons, ih]
      rfl

theorem includedResults_sum_le :
    ∀ (rs : List SearchResult) (m : Int) (cur : Nat),
      includedResults m rs cur ≠ [] →
      (cur : Int) + ((includedResults m rs cur).map (fun r => (r.content.length : Int))).sum ≤ m := by
  intro rs
  induction rs with
  | nil => intro m cur h; exact absurd rfl h
  | cons r t ih =>
    intro m cur h
    unfold includedResults at h ⊢
    by_cases hc : ((cur : Int) + r.content.length > m)
    · rw [if_pos hc] at h
      exact absurd rfl h
    · rw [if_neg hc]
      rw [List.map_cons, List.sum_cons]
      by_cases he : includedResults m t (cur + r.content.length) = []
      · rw [he]
        simp only [List.map_nil, List.sum_nil]
        omega
      · have hrec := ih m (cur + r.content.length) he
        push_cast at hrec ⊢
        omega

theorem includedResults_isPrefixOfInput :
    ∀ (rs : List SearchResult) (m : Int) (cur : Nat),
      (includedResults m rs cur) <+: rs := by
  intro rs
  induction rs with
  | nil => intro m cur; exact ⟨[], rfl⟩
  | cons r t ih =>
    intro m cur
    unfold includedResults
    by_cases h : ((cur : Int) + r.content.length > m)
    · rw [if_pos h]
      exact ⟨r :: t, rfl⟩
    · rw [if_neg h]
      obtain ⟨rest, hrest⟩ := ih m (cur + r.content.length)
      exact ⟨rest, by rw [List.cons_append, hrest]⟩

/-- C3 (amended): the loop of `generate_context` stops at an element
boundary: the included candidates are a prefix of the input, the sum of their
CONTENT lengths never exceeds `max_length`, and if the first candidate alone
exceeds the budget the empty string is returned.  However, the returned
string is the included contents each PREFIXED by an uncounted score
annotation (and joined by separators), so its total length can exceed
`max_length` plus the separators — see the counterexample. -/
theorem generate_context_spec (results : List SearchResult) (max_length : Int) :
    (includedResults max_length results 0) <+: results ∧
    (includedResults max_length results 0 ≠ [] →
      ((includedResults max_length results 0).map (fun r => (r.content.length : Int))).sum
        ≤ max_length) ∧
    generate_context results max_length
      = String.intercalate "\n\n" ((includedResults max_length results 0).map contextLine) ∧
    (∀ r rs, results = r :: rs → (r.content.length : Int) > max_length →
      generate_context results max_length = "") := by
  refine ⟨includedResults_isPrefixOfInput results max_length 0, ?_, ?_, ?_⟩
  · intro h
    have hsum := includedResults_sum_le results max_length 0 h
    simpa using hsum
  · unfold generate_context
    rw [contextPartsGo_eq_map]
  · intro r rs hres hlen
    subst hres
    unfold generate_context contextPartsGo
    rw [if_pos (by omega)]
    rfl

/-- C3 (counterexample): a single candidate of content length 5 under budget
`maxChars = 5` is included (5 > 5 is false), yet the returned string is the
18-character `"[Score: 0.0] aaaaa"` — longer than `maxChars` plus the zero
separators, because the score annotation is not counted against the budget. -/
theorem generate_context_budget_cex :
    generate_context [⟨"aaaaa", 0, [], "unknown"⟩] 5 = "[Score: 0.0] aaaaa" ∧
    (generate_context [⟨"aaaaa", 0, [], "unknown"⟩] 5).length = 18 ∧
    ¬ ((generate_context [⟨"aaaaa", 0, [], "unknown"⟩] 5).length ≤ 5) := by
  refine ⟨by decide, by decide, by decide⟩

/-- Concrete candidates for the C3 witness. -/
def budgetWitness1 : SearchResult :=
  ⟨"abc", 1, [], "unknown"⟩

def budgetWitness2 : SearchResult :=
  ⟨"defg", 2, [], "unknown"⟩

/-- C3 (witness): concrete instance of `generate_context_spec` — with budget 7
both contents (3 + 4 characters) are included and their content-length sum is
within the budget. -/
theorem generate_context_spec_witness :
    includedResults 7 [budgetWitness1, budgetWitness2] 0 ≠ [] ∧
    ((includedResults 7 [budgetWitness1, budgetWitness2] 0).map
      (fun r => (r.content.length : Int))).sum ≤ 7 :=
  ⟨by decide, (generate_context_spec [budgetWitness1, budgetWitness2] 7).2.1 (by decide)⟩

/-! ### Properties of `hybrid_search` and `ask_question` (claims C1, C8, C10) -/

/-- C10 (confirmed): `hybrid_search` returns at most `k` candidates, for every
index behaviour, set-enumeration order, query and `k` — the deduplicated and
reranked pool is truncated by the final `[:k]`. -/
theorem hybrid_search_length_le (index : String → Nat → List Hit)
    (σ : List String → List String) (query : String) (k : Nat) :
    (hybrid_search index σ query k).length ≤ k := by
  unfold hybrid_search
  exact List.length_take_le k _

theorem hybrid_search_eq_nil_of_no_content (index : String → Nat → List Hit)
    (σ : List String → List String) (query : String) (k : Nat)
    (h : ∀ v j, ∀ hit ∈ index v j, hit.content = "") :
    hybrid_search index σ query k = [] := by
  simp only [hybrid_search]
  have hall : ∀ variation ∈ preprocess_query σ query,
      List.filterMap (fun hit : Hit =>
        if hit.content = "" then none
        else some (SearchResult.mk hit.content
          (calculate_relevance_score variation hit.content) hit.metadata
          (sourceOfMetadata hit.metadata))) (index variation k) = [] := by
    intro v _
    rw [List.filterMap_eq_nil_iff]
    intro hit hhit
    rw [if_pos (h v k hit hhit)]
  rw [List.flatMap_eq_nil_iff.mpr hall]
  have hdedup : deduplicate_results [] = [] := rfl
  have hrerank : rerank_results query [] = [] := rfl
  rw [hdedup, hrerank, List.take_nil]

/-- C1 (confirmed): when retrieval yields zero candidates (every hit of every
variant has empty content — in particular when the index returns no hits at
all), `ask_question` returns the fixed insufficient-information string and
the result does not depend on the generation provider (the provider is never
invoked). -/
theorem ask_question_no_candidates (index : String → Nat → List Hit)
    (σ : List String → List String) (llm : String → String → Except String String)
    (question : String)
    (h : ∀ v j, ∀ hit ∈ index v j, hit.content = "") :
    ask_question index σ llm question = INSUFFICIENT_INFO ∧
    ∀ llm' : String → String → Except String String,
      ask_question index σ llm' question = ask_question index σ llm question := by
  have hs : hybrid_search index σ question 8 = [] :=
    hybrid_search_eq_nil_of_no_content index σ question 8 h
  constructor
  · unfold ask_question
    rw [hs]
    rfl
  · intro llm'
    unfold ask_question
    rw [hs]
    rfl

/-- C1 (witness): concrete instance of `ask_question_no_candidates` with an
index that returns no hits. -/
theorem ask_question_no_candidates_witness :
    (∀ v j, ∀ hit ∈ (fun (_ : String) (_ : Nat) => ([] : List Hit)) v j,
      hit.content = "") ∧
    ask_question (fun _ _ => []) pySetList (fun _ _ => Except.ok "answer") "hi"
      = INSUFFICIENT_INFO :=
  ⟨by simp, (ask_question_no_candidates (fun _ _ => []) pySetList
    (fun _ _ => Except.ok "answer") "hi" (by simp)).1⟩

/-- C8 (confirmed): when the retrieval phase produced candidates and the
generation provider raises an error `e`, `ask_question` still returns a
string — the formatted error string — which carries the error marker
`"Error generating response:"` as a substring; no exception escapes (the
model is a total function into `String`). -/
theorem ask_question_provider_error (index : String → Nat → List Hit)
    (σ : List String → List String) (question e : String)
    (h : hybrid_search index σ question 8 ≠ []) :
    ask_question index σ (fun _ _ => Except.error e) question
      = "Error generating response: " ++ e ∧
    pyIn "Error generating response:"
      (ask_question index σ (fun _ _ => Except.error e) question) = true := by
  have h1 : ask_question index σ (fun _ _ => Except.error e) question
      = "Error generating response: " ++ e := by
    unfold ask_question
    rw [if_neg h]
    rfl
  refine ⟨h1, ?_⟩
  rw [h1]
  unfold pyIn
  rw [decide_eq_true_eq]
  refine ⟨[], ' ' :: e.data, ?_⟩
  rw [String.data_append]
  have hsp : ("Error generating response: ").data
      = ("Error generating response:").data ++ [' '] := by decide
  rw [hsp]
  simp

/-- A one-hit index for the C8 witness. -/
def errorWitnessIndex : String → Nat → List Hit :=
  fun _ _ => [⟨"hello", []⟩]

/-- C8 (witness): concrete instance of `ask_question_provider_error` — one
retrieved candidate, provider fails with `"boom"`, and the formatted error
string is returned. -/
theorem ask_question_provider_error_witness :
    hybrid_search errorWitnessIndex pySetList "hi" 8 ≠ [] ∧
    ask_question errorWitnessIndex pySetList (fun _ _ => Except.error "boom") "hi"
      = "Error generating response: boom" :=
  ⟨by decide, (ask_question_provider_error errorWitnessIndex pySetList "hi" "boom"
    (by decide)).1⟩

end AdvancedRag
